import Mathlib

/-!
Verification of the face-recognition attendance system (files `main.py` and `main2.py`).

The development shallowly embeds the identity-matching and attendance-ledger pipeline:

* the attendance ledger (`mark_attendance`, shared verbatim by both variants),
* the embedding matcher of `main.py` (`compare_faces`, `argminFirst`, `matchFace`,
  `run_face_step`),
* enrollment (`add_employee_capture` for `main.py`, `add_employee_capture2` for `main2.py`),
* training of the lightweight classifier variant (`train_model` of `main2.py`),
* the per-face recognition step of `main2.py` (`run_face_step2`).

Conventions: CSV ledger lines are plain strings `name ++ "," ++ date ++ "," ++ time`;
Python's substring operator `in` is modelled by `strContains`; an image is modelled by
the list of faces the respective detector finds in it (the only property the code ever
observes about an image); real-valued face descriptors are lists of rationals.
-/

/-- Boolean test that `needle` is a prefix of `hay` (character lists). -/
def startsWith : List Char → List Char → Bool
  | _, [] => true
  | [], _ :: _ => false
  | a :: t, b :: u => a == b && startsWith t u

/-- Python's substring operator: `containsSub hay needle` is true iff `needle`
occurs contiguously inside `hay`. -/
def containsSub : List Char → List Char → Bool
  | [], needle => needle.isEmpty
  | a :: t, needle => startsWith (a :: t) needle || containsSub t needle

/-- Python's `needle in hay` on strings (`main.py` line 75, `main2.py` line 132). -/
def strContains (hay needle : String) : Bool :=
  containsSub hay.data needle.data

/-- One CSV data row of the attendance log, as written by `csv.writer.writerow`
(`[name, date_str, time_str]`). -/
def csvLine (name dateStr timeStr : String) : String :=
  name ++ "," ++ dateStr ++ "," ++ timeStr

/-- The duplicate check of `mark_attendance` (`main.py` lines 70-77): scan every
line of the log for `name in line and date_str in line`. -/
def alreadyMarked (ledger : List String) (name dateStr : String) : Bool :=
  ledger.any fun line => strContains line name && strContains line dateStr

/-- Result of one `mark_attendance` call: the new log contents, the returned
Boolean (`True` = Marked, `False` = AlreadyMarkedToday) and whether
`success_indication` (the Feedback Signal) was invoked. -/
structure MarkResult where
  ledger : List String
  marked : Bool
  feedback : Bool
  deriving DecidableEq

/-- `FaceRecognitionAttendance.mark_attendance` (`main.py` lines 64-90; identical in
`main2.py` lines 121-147): if no existing line contains both the name and today's
date as substrings, append one CSV row and trigger the feedback signal, returning
`True`; otherwise leave the file untouched and return `False`. -/
def mark_attendance (ledger : List String) (name dateStr timeStr : String) : MarkResult :=
  if alreadyMarked ledger name dateStr then
    ⟨ledger, false, false⟩
  else
    ⟨ledger ++ [csvLine name dateStr timeStr], true, true⟩

theorem startsWith_iff (hay needle : List Char) :
    startsWith hay needle = true ↔ needle <+: hay := by
  induction needle generalizing hay with
  | nil => cases hay <;> simp [startsWith]
  | cons b u ih =>
    cases hay with
    | nil => simp [startsWith]
    | cons a t =>
      simp only [startsWith, Bool.and_eq_true, beq_iff_eq, ih, List.cons_prefix_cons]
      exact Iff.intro (fun h => ⟨h.1.symm, h.2⟩) (fun h => ⟨h.1.symm, h.2⟩)

theorem containsSub_iff (hay needle : List Char) :
    containsSub hay needle = true ↔ needle <:+: hay := by
  induction hay with
  | nil =>
    simp [containsSub, List.isEmpty_iff]
  | cons a t ih =>
    simp [containsSub, startsWith_iff, ih, List.infix_cons_iff]

theorem strContains_of_infix {hay needle : String} (h : needle.data <:+: hay.data) :
    strContains hay needle = true :=
  (containsSub_iff hay.data needle.data).2 h

/-- The name written into a CSV row occurs in that row as a substring. -/
theorem strContains_csvLine_name (n d t : String) :
    strContains (csvLine n d t) n = true := by
  apply strContains_of_infix
  refine ⟨[], ("," ++ d ++ "," ++ t).data, ?_⟩
  simp [csvLine, String.data_append]

/-- The date written into a CSV row occurs in that row as a substring. -/
theorem strContains_csvLine_date (n d t : String) :
    strContains (csvLine n d t) d = true := by
  apply strContains_of_infix
  refine ⟨(n ++ ",").data, ("," ++ t).data, ?_⟩
  simp [csvLine, String.data_append]

/-- After appending a row for `(n, d)`, the duplicate check fires for `(n, d)`. -/
theorem alreadyMarked_append_self (L : List String) (n d t : String) :
    alreadyMarked (L ++ [csvLine n d t]) n d = true := by
  simp only [alreadyMarked, List.any_append, List.any_cons, List.any_nil,
    Bool.or_false, Bool.or_eq_true, Bool.and_eq_true]
  exact Or.inr ⟨strContains_csvLine_name n d t, strContains_csvLine_date n d t⟩

/-- C1: for every name `n` and date `d`, if `n` is not yet marked for `d`, the first
`mark_attendance` call appends exactly one CSV record with fields `(n, d)` to the end
of the ledger, returns `True` (Marked) and triggers the Feedback Signal; a second call
on the same date appends nothing, returns `False` (AlreadyMarkedToday) and does not
trigger the Feedback Signal. -/
theorem mark_attendance_idempotent_per_day (L : List String) (n d t₁ t₂ : String)
    (h : alreadyMarked L n d = false) :
    mark_attendance L n d t₁ = ⟨L ++ [csvLine n d t₁], true, true⟩ ∧
    mark_attendance (L ++ [csvLine n d t₁]) n d t₂ = ⟨L ++ [csvLine n d t₁], false, false⟩ := by
  constructor
  · simp [mark_attendance, h]
  · simp [mark_attendance, alreadyMarked_append_self]

theorem mark_attendance_idempotent_per_day_witness :
    alreadyMarked [] "Alice" "2025-10-12" = false ∧
    mark_attendance [] "Alice" "2025-10-12" "08:30:00"
      = ⟨[csvLine "Alice" "2025-10-12" "08:30:00"], true, true⟩ ∧
    mark_attendance [csvLine "Alice" "2025-10-12" "08:30:00"] "Alice" "2025-10-12" "09:00:00"
      = ⟨[csvLine "Alice" "2025-10-12" "08:30:00"], false, false⟩ := by
  have h := mark_attendance_idempotent_per_day [] "Alice" "2025-10-12" "08:30:00" "09:00:00" rfl
  exact ⟨rfl, by simpa using h.1, by simpa using h.2⟩

/-- C2: the duplicate check is a substring scan, not an exact field match: with a
ledger holding the single record `"Ali,2025-10-12,08:00:00"`, calling
`mark_attendance` for the distinct name `"Al"` on the same date appends nothing and
returns `False` (AlreadyMarkedToday), even though `"Al"` never occurs as a full Name
field of any record. -/
theorem mark_attendance_substring_collision :
    mark_attendance [csvLine "Ali" "2025-10-12" "08:00:00"] "Al" "2025-10-12" "09:00:00"
      = ⟨[csvLine "Ali" "2025-10-12" "08:00:00"], false, false⟩ ∧
    ("Al" : String) ≠ "Ali" := by
  constructor
  · decide
  · decide

/-- C8: `mark_attendance` never mutates or deletes existing records: the prior ledger
is a prefix of the resulting ledger, and the result either gained exactly one new
record at the end (when it returned Marked) or is identical (AlreadyMarkedToday). -/
theorem mark_attendance_append_only (L : List String) (n d t : String) :
    L <+: (mark_attendance L n d t).ledger ∧
    ((mark_attendance L n d t).marked = true ∧
        (mark_attendance L n d t).ledger = L ++ [csvLine n d t] ∨
      (mark_attendance L n d t).marked = false ∧
        (mark_attendance L n d t).ledger = L) := by
  by_cases h : alreadyMarked L n d
  · simp [mark_attendance, h]
  · simp [mark_attendance, h, List.prefix_append]

/-- The acceptance tolerance of `face_recognition.compare_faces` as used in `main.py`
line 137 is `0.6` on Euclidean distance.  The embedding works with squared Euclidean
distances throughout (the square root is strictly monotone on nonnegative reals, so
argmin indices and threshold comparisons are unchanged); the squared tolerance is
`0.6 ^ 2 = 9 / 25`. -/
def toleranceSq : ℚ := 9 / 25

/-- Squared Euclidean distance between two descriptors, the square of
`face_recognition.face_distance` = `np.linalg.norm(known - query)`. -/
def faceDistanceSq (a b : List ℚ) : ℚ :=
  ((a.zip b).map fun p => (p.1 - p.2) ^ 2).sum

/-- `face_recognition.face_distance(self.known_face_encodings, face_encoding)`
(`main.py` line 139), squared componentwise. -/
def faceDistancesSq (encs : List (List ℚ)) (q : List ℚ) : List ℚ :=
  encs.map fun e => faceDistanceSq e q

/-- `face_recognition.compare_faces(self.known_face_encodings, face_encoding,
tolerance=0.6)` (`main.py` line 137): one Boolean per enrolled descriptor, true iff
its distance to the query is at most the tolerance. -/
def compare_faces (encs : List (List ℚ)) (q : List ℚ) : List Bool :=
  (faceDistancesSq encs q).map fun s => decide (s ≤ toleranceSq)

/-- `np.argmin` (`main.py` line 142): the first index at which the list attains its
minimum. -/
def argminFirst (l : List ℚ) : Nat :=
  l.findIdx fun x => l.all fun y => decide (x ≤ y)

/-- The per-face name decision of `FaceRecognitionAttendance.run` (`main.py` lines
136-146): start from `"Unknown"`; if the enrolled set is nonempty, take the index of
minimum distance and, if `matches` holds there, resolve to the enrolled name at that
index. -/
def matchFace (encs : List (List ℚ)) (names : List String) (q : List ℚ) : String :=
  let dists := faceDistancesSq encs q
  if 0 < dists.length then
    let i := argminFirst dists
    if (compare_faces encs q).getD i false then names.getD i "Unknown" else "Unknown"
  else "Unknown"

/-- Observable outcome of processing one detected face in `main.py`'s `run` loop:
the resolved name, the name passed to `mark_attendance` (if any), the resulting
ledger and whether the Feedback Signal fired. -/
structure FaceStepResult where
  name : String
  markCalled : Option String
  ledger : List String
  feedback : Bool
  deriving DecidableEq

/-- One iteration of the per-face body of `FaceRecognitionAttendance.run`
(`main.py` lines 136-146), including the `mark_attendance` call made on acceptance. -/
def run_face_step (encs : List (List ℚ)) (names : List String) (q : List ℚ)
    (ledger : List String) (dateStr timeStr : String) : FaceStepResult :=
  let dists := faceDistancesSq encs q
  if 0 < dists.length then
    let i := argminFirst dists
    if (compare_faces encs q).getD i false then
      let nm := names.getD i "Unknown"
      let r := mark_attendance ledger nm dateStr timeStr
      ⟨nm, some nm, r.ledger, r.feedback⟩
    else ⟨"Unknown", none, ledger, false⟩
  else ⟨"Unknown", none, ledger, false⟩

/-- A nonempty list of rationals has a least element. -/
theorem exists_min_mem (l : List ℚ) (h : l ≠ []) : ∃ x ∈ l, ∀ y ∈ l, x ≤ y := by
  induction l with
  | nil => exact absurd rfl h
  | cons a t ih =>
    cases t with
    | nil =>
      refine ⟨a, List.mem_cons_self a [], ?_⟩
      intro y hy
      simp only [List.mem_singleton] at hy
      simp [hy]
    | cons b u =>
      obtain ⟨m, hm, hmin⟩ := ih (by simp)
      by_cases hc : a ≤ m
      · refine ⟨a, List.mem_cons_self a _, ?_⟩
        intro y hy
        rcases List.mem_cons.1 hy with h1 | h2
        · simp [h1]
        · exact le_trans hc (hmin y h2)
      · refine ⟨m, List.mem_cons_of_mem a hm, ?_⟩
        intro y hy
        rcases List.mem_cons.1 hy with h1 | h2
        · exact h1 ▸ le_of_lt (lt_of_not_le hc)
        · exact hmin y h2

theorem argminFirst_lt_length {l : List ℚ} (h : l ≠ []) : argminFirst l < l.length := by
  apply List.findIdx_lt_length_of_exists
  obtain ⟨x, hx, hmin⟩ := exists_min_mem l h
  refine ⟨x, hx, ?_⟩
  simp only [List.all_eq_true, decide_eq_true_eq]
  exact hmin

theorem argminFirst_min {l : List ℚ} (h : l ≠ []) :
    ∀ y ∈ l, l.getD (argminFirst l) 0 ≤ y := by
  have hi : argminFirst l < l.length := argminFirst_lt_length h
  have hp := @List.findIdx_getElem _ (fun x => l.all fun y => decide (x ≤ y)) l hi
  simp only [List.all_eq_true, decide_eq_true_eq] at hp
  rw [List.getD_eq_getElem l 0 hi]
  exact hp

theorem argminFirst_le_getD {l : List ℚ} (h : l ≠ []) (j : Nat) (hj : j < l.length) :
    l.getD (argminFirst l) 0 ≤ l.getD j 0 := by
  rw [List.getD_eq_getElem l 0 hj]
  exact argminFirst_min h _ (List.getElem_mem hj)

theorem argminFirst_first {l : List ℚ} (h : l ≠ []) (j : Nat) (hj : j < argminFirst l) :
    l.getD (argminFirst l) 0 < l.getD j 0 := by
  have hjl : j < l.length := lt_of_lt_of_le hj (List.findIdx_le_length _)
  have hnp := List.not_of_lt_findIdx hj
  simp only [List.all_eq_false] at hnp
  obtain ⟨y, hy, hylt⟩ := hnp
  simp only [decide_eq_true_eq, not_le] at hylt
  rw [List.getD_eq_getElem l 0 hjl]
  exact lt_of_le_of_lt (argminFirst_min h y hy) hylt

theorem faceDistancesSq_length (encs : List (List ℚ)) (q : List ℚ) :
    (faceDistancesSq encs q).length = encs.length :=
  List.length_map encs _

theorem faceDistancesSq_getD (encs : List (List ℚ)) (q : List ℚ)
    (j : Nat) (hj : j < encs.length) :
    (faceDistancesSq encs q).getD j 0 = faceDistanceSq (encs.getD j []) q := by
  have hj' : j < (faceDistancesSq encs q).length := by
    rw [faceDistancesSq_length]; exact hj
  rw [List.getD_eq_getElem _ 0 hj', List.getD_eq_getElem encs [] hj]
  simp [faceDistancesSq]

/-- C3: with a nonempty enrolled set, the embedding matcher selects the enrolled
descriptor at the first index of minimum (squared) Euclidean distance to the query
(earlier indices have strictly larger distance), accepts exactly when that minimum
distance is within the tolerance (per the spec glossary the tolerance is the maximum
accepted distance), never selects an index whose distance is beaten by another, and —
for pairwise distinct enrolled names — if `distance(q, A) < distance(q, B)` with `A`
within tolerance, the resolved name is never `B`'s. -/
theorem embedding_matcher_nearest (encs : List (List ℚ)) (names : List String) (q : List ℚ)
    (hne : encs ≠ []) :
    argminFirst (faceDistancesSq encs q) < encs.length ∧
    (∀ j, j < encs.length →
      faceDistanceSq (encs.getD (argminFirst (faceDistancesSq encs q)) []) q ≤
        faceDistanceSq (encs.getD j []) q) ∧
    (∀ j, j < argminFirst (faceDistancesSq encs q) →
      faceDistanceSq (encs.getD (argminFirst (faceDistancesSq encs q)) []) q <
        faceDistanceSq (encs.getD j []) q) ∧
    matchFace encs names q =
      (if faceDistanceSq (encs.getD (argminFirst (faceDistancesSq encs q)) []) q ≤ toleranceSq
        then names.getD (argminFirst (faceDistancesSq encs q)) "Unknown" else "Unknown") ∧
    (∀ a b, a < encs.length → b < encs.length →
      faceDistanceSq (encs.getD a []) q < faceDistanceSq (encs.getD b []) q →
      argminFirst (faceDistancesSq encs q) ≠ b) ∧
    (names.Nodup → names.length = encs.length →
      ∀ a b, a < encs.length → b < encs.length →
        faceDistanceSq (encs.getD a []) q < faceDistanceSq (encs.getD b []) q →
        faceDistanceSq (encs.getD a []) q ≤ toleranceSq →
        matchFace encs names q ≠ names.getD b "Unknown") := by
  have hdne : faceDistancesSq encs q ≠ [] := by
    simp [faceDistancesSq, hne]
  have hdlen : (faceDistancesSq encs q).length = encs.length := faceDistancesSq_length encs q
  have hpos : 0 < (faceDistancesSq encs q).length := by
    rw [hdlen]; exact List.length_pos.2 hne
  have hi : argminFirst (faceDistancesSq encs q) < encs.length := by
    rw [← hdlen]; exact argminFirst_lt_length hdne
  have h2 : ∀ j, j < encs.length →
      faceDistanceSq (encs.getD (argminFirst (faceDistancesSq encs q)) []) q ≤
        faceDistanceSq (encs.getD j []) q := by
    intro j hj
    rw [← faceDistancesSq_getD encs q _ hi, ← faceDistancesSq_getD encs q j hj]
    exact argminFirst_le_getD hdne j (by rw [hdlen]; exact hj)
  have h3 : ∀ j, j < argminFirst (faceDistancesSq encs q) →
      faceDistanceSq (encs.getD (argminFirst (faceDistancesSq encs q)) []) q <
        faceDistanceSq (encs.getD j []) q := by
    intro j hj
    have hjl : j < encs.length := lt_trans hj hi
    rw [← faceDistancesSq_getD encs q _ hi, ← faceDistancesSq_getD encs q j hjl]
    exact argminFirst_first hdne j hj
  have hcomp : (compare_faces encs q).getD (argminFirst (faceDistancesSq encs q)) false
      = decide (faceDistanceSq (encs.getD (argminFirst (faceDistancesSq encs q)) []) q
          ≤ toleranceSq) := by
    have hi' : argminFirst (faceDistancesSq encs q) < (faceDistancesSq encs q).length := by
      rw [hdlen]; exact hi
    have hi'' : argminFirst (faceDistancesSq encs q) < (compare_faces encs q).length := by
      simpa [compare_faces] using hi'
    rw [List.getD_eq_getElem _ false hi'']
    rw [← faceDistancesSq_getD encs q _ hi, List.getD_eq_getElem _ 0 hi']
    simp [compare_faces]
  have h4 : matchFace encs names q =
      (if faceDistanceSq (encs.getD (argminFirst (faceDistancesSq encs q)) []) q ≤ toleranceSq
        then names.getD (argminFirst (faceDistancesSq encs q)) "Unknown" else "Unknown") := by
    show (if 0 < (faceDistancesSq encs q).length then
        if (compare_faces encs q).getD (argminFirst (faceDistancesSq encs q)) false
          then names.getD (argminFirst (faceDistancesSq encs q)) "Unknown" else "Unknown"
      else "Unknown") = _
    rw [if_pos hpos, hcomp]
    by_cases hP : faceDistanceSq (encs.getD (argminFirst (faceDistancesSq encs q)) []) q
        ≤ toleranceSq
    · simp [hP]
    · simp [hP]
  have h5 : ∀ a b, a < encs.length → b < encs.length →
      faceDistanceSq (encs.getD a []) q < faceDistanceSq (encs.getD b []) q →
      argminFirst (faceDistancesSq encs q) ≠ b := by
    intro a b ha hb hab heq
    have := h2 a ha
    rw [heq] at this
    exact absurd (lt_of_le_of_lt this hab) (lt_irrefl _)
  refine ⟨hi, h2, h3, h4, h5, ?_⟩
  intro hnd hnl a b ha hb hab hatol hres
  have hib : argminFirst (faceDistancesSq encs q) ≠ b := h5 a b ha hb hab
  have hmin : faceDistanceSq (encs.getD (argminFirst (faceDistancesSq encs q)) []) q
      ≤ toleranceSq := le_trans (h2 a ha) hatol
  rw [h4, if_pos hmin] at hres
  have hiN : argminFirst (faceDistancesSq encs q) < names.length := by
    rw [hnl]; exact hi
  have hbN : b < names.length := by rw [hnl]; exact hb
  rw [List.getD_eq_getElem names "Unknown" hiN, List.getD_eq_getElem names "Unknown" hbN] at hres
  have : (⟨argminFirst (faceDistancesSq encs q), hiN⟩ : Fin names.length) = ⟨b, hbN⟩ := by
    rw [← hnd.get_inj_iff]
    simpa using hres
  exact hib (by simpa using congrArg Fin.val this)

theorem embedding_matcher_nearest_witness :
    ([[(0 : ℚ)], [1]] : List (List ℚ)) ≠ [] ∧
    argminFirst (faceDistancesSq [[(0 : ℚ)], [1]] [(1 : ℚ) / 4]) <
      ([[(0 : ℚ)], [1]] : List (List ℚ)).length ∧
    matchFace [[(0 : ℚ)], [1]] ["A", "B"] [(1 : ℚ) / 4] = "A" := by
  refine ⟨by decide, ?_, ?_⟩
  · exact (embedding_matcher_nearest [[(0 : ℚ)], [1]] ["A", "B"] [(1 : ℚ) / 4] (by decide)).1
  · norm_num [matchFace, compare_faces, faceDistancesSq, faceDistanceSq, argminFirst,
      toleranceSq, List.findIdx_cons, List.all_cons]

/-- C4: against an empty enrolled set the per-face decision of the embedding variant
is always `"Unknown"`, `mark_attendance` is never invoked, the ledger is untouched,
no feedback fires and no error is raised (`matchFace` and `run_face_step` are total
functions also on the empty Identity Store). -/
theorem empty_store_unknown (names : List String) (q : List ℚ)
    (ledger : List String) (d t : String) :
    matchFace [] names q = "Unknown" ∧
    run_face_step [] names q ledger d t = ⟨"Unknown", none, ledger, false⟩ := by
  constructor
  · rfl
  · rfl

/-- An image in the `main.py` variant is represented by the list of face encodings
`face_recognition.face_encodings` finds in it — the only property the code observes. -/
abbrev Image : Type := List (List ℚ)

/-- An image in the `main2.py` variant is represented by the list of face regions
`face_cascade.detectMultiScale` finds in it (regions abstracted to identifiers). -/
abbrev Image2 : Type := List Nat

/-- Writing a file (`cv2.imwrite`): overwrite the entry with the given key if one
exists, otherwise create it.  File stores are keyed by the filename stem — every
database file is `<stem>.jpg`, and the code derives the employee name from the stem. -/
def setFile {α : Type} (fs : List (String × α)) (k : String) (v : α) : List (String × α) :=
  if fs.any fun p => p.1 == k then
    fs.map fun p => if p.1 == k then (k, v) else p
  else fs ++ [(k, v)]

/-- Deleting a file (`os.remove`). -/
def removeFile {α : Type} (fs : List (String × α)) (k : String) : List (String × α) :=
  fs.filter fun p => p.1 != k

/-- Outcome of one enrollment capture attempt. -/
inductive EnrollOutcome where
  | success
  | noFaceDetected
  deriving DecidableEq

/-- State after a `main.py` enrollment capture attempt: the in-memory Identity Store
(`known_face_encodings` and `known_face_names`) and the employee-image files. -/
structure EnrollResult where
  encodings : List (List ℚ)
  names : List String
  files : List (String × Image)
  outcome : EnrollOutcome
  deriving DecidableEq

/-- One capture attempt (key `'c'`) of `FaceRecognitionAttendance.add_employee`
(`main.py` lines 191-208): save the captured image under `<name>.jpg` (overwriting
any existing file of that name), reload it and compute face encodings; if at least
one face is found, append the first encoding and the name to the in-memory lists;
otherwise delete the just-saved file and report no face. -/
def add_employee_capture (encs : List (List ℚ)) (names : List String)
    (files : List (String × Image)) (name : String) (img : Image) : EnrollResult :=
  let files1 := setFile files name img
  match img with
  | e :: _ => ⟨encs ++ [e], names ++ [name], files1, .success⟩
  | [] => ⟨encs, names, removeFile files1 name, .noFaceDetected⟩

/-- In-memory state of the `main2.py` classifier variant produced by `train_model`:
the collected training samples (first detected region per image), their parallel
integer labels, the label-to-name table (persisted to `models/employee_ids.csv`),
whether `recognizer.train` ran (at least one face collected), and the names echoed by
the `print(f"Processed: {name}")` lines (one per image in which a face was found —
note the loop prints nothing for images without a detected face). -/
structure TrainResult where
  faces : List Nat
  ids : List Nat
  idMap : List (Nat × String)
  trained : Bool
  processed : List String
  deriving DecidableEq

/-- The per-file loop of `LightweightFaceAttendance.train_model` (`main2.py` lines
78-105), parametrized by the running `next_id` counter: every image file gets an id
and an `id_map` entry; only images with at least one detected face contribute a
`(region, id)` training pair (the loop breaks after the first region). -/
def trainGo : List (String × Image2) → Nat →
    List Nat × List Nat × List (Nat × String) × List String
  | [], _ => ([], [], [], [])
  | (name, img) :: rest, nextId =>
    let r := trainGo rest (nextId + 1)
    match img with
    | region :: _ =>
      (region :: r.1, nextId :: r.2.1, (nextId, name) :: r.2.2.1, name :: r.2.2.2)
    | [] => (r.1, r.2.1, (nextId, name) :: r.2.2.1, r.2.2.2)

/-- `LightweightFaceAttendance.train_model` (`main2.py` lines 67-119): run the
per-file loop starting from id 1, persist the id map, and train the recognizer iff
at least one face was collected. -/
def train_model (files : List (String × Image2)) : TrainResult :=
  match trainGo files 1 with
  | (fs, ls, m, pr) => ⟨fs, ls, m, decide (0 < fs.length), pr⟩

/-- State after a `main2.py` enrollment capture attempt. -/
structure Enroll2Result where
  files : List (String × Image2)
  store : TrainResult
  outcome : EnrollOutcome
  deriving DecidableEq

/-- One capture attempt (key `'c'`) of `LightweightFaceAttendance.add_employee`
(`main2.py` lines 269-280): if at least one face is detected in the frame, persist
the image under `<name>.jpg` and retrain the model from the full database; otherwise
change nothing and report no face. -/
def add_employee_capture2 (files : List (String × Image2)) (store : TrainResult)
    (name : String) (img : Image2) : Enroll2Result :=
  match img with
  | [] => ⟨files, store, .noFaceDetected⟩
  | _ :: _ =>
    let files1 := setFile files name img
    ⟨files1, train_model files1, .success⟩

/-- `self.employee_ids.get(id_num, default)` (`main2.py` line 200): lookup in the
label-to-name table. -/
def lookupId (m : List (Nat × String)) (k : Nat) : Option String :=
  (m.find? fun p => p.1 == k).map Prod.snd

/-- Observable outcome of processing one detected face in `main2.py`'s `run` loop:
the name drawn onto the frame (none when the `except` branch ran), the printed error
message (the `except` branch of lines 213-214), the name passed to `mark_attendance`
(if any), the resulting ledger and whether the Feedback Signal fired. -/
structure Face2StepResult where
  displayed : Option String
  errorMsg : Option String
  markCalled : Option String
  ledger : List String
  feedback : Bool
  deriving DecidableEq

/-- The per-face body of `LightweightFaceAttendance.run` (`main2.py` lines 187-214).
The recognizer is `none` when untrained: `recognizer.predict` then raises a cv2
error, which the `try/except` turns into a printed `"Error during recognition: ..."`
message, after which the loop continues with no name resolved and no marking.  With
a trained recognizer, `predict` yields `(id_num, confidence)`; when
`confidence < 70` the name is resolved through the id table with default
`"Unknown"` and `mark_attendance` is invoked with it; otherwise the face is
displayed as `"Unknown"` and nothing is marked. -/
def run_face_step2 (recognizer : Option (Nat → Nat × ℚ)) (employeeIds : List (Nat × String))
    (faceImg : Nat) (ledger : List String) (dateStr timeStr : String) : Face2StepResult :=
  match recognizer with
  | none => ⟨none, some "Error during recognition: model not trained", none, ledger, false⟩
  | some predict =>
    let p := predict faceImg
    if p.2 < 70 then
      let name := (lookupId employeeIds p.1).getD "Unknown"
      let r := mark_attendance ledger name dateStr timeStr
      ⟨some name, none, some name, r.ledger, r.feedback⟩
    else
      ⟨some "Unknown", none, none, ledger, false⟩

/-- Deleting the key just written deletes exactly the key's entries: overwriting a
file and then removing it is the same as removing whatever was there before. -/
theorem filter_ne_map_update {α : Type} (t : List (String × α)) (k : String) (v : α) :
    List.filter (fun p => p.1 != k) (t.map fun p => if p.1 == k then (k, v) else p)
      = List.filter (fun p => p.1 != k) t := by
  induction t with
  | nil => rfl
  | cons a t ih =>
    by_cases hk : a.1 = k
    · simp only [List.map_cons, List.filter_cons]
      simp [hk]
      simpa using ih
    · simp only [List.map_cons, List.filter_cons]
      simp [hk]
      simpa using ih

theorem removeFile_setFile {α : Type} (fs : List (String × α)) (k : String) (v : α) :
    removeFile (setFile fs k v) k = removeFile fs k := by
  unfold setFile removeFile
  by_cases h : fs.any fun p => p.1 == k
  · rw [if_pos h]
    exact filter_ne_map_update fs k v
  · rw [if_neg h, List.filter_append]
    simp

/-- Removing a key that is not present changes nothing. -/
theorem removeFile_not_mem {α : Type} (fs : List (String × α)) (k : String)
    (h : k ∉ fs.map Prod.fst) : removeFile fs k = fs := by
  apply List.filter_eq_self.2
  intro p hp
  have : p.1 ≠ k := by
    intro he
    exact h (he ▸ List.mem_map_of_mem Prod.fst hp)
  simpa [bne_iff_ne] using this

/-- The keys of the file store after `setFile`. -/
theorem setFile_map_fst {α : Type} (fs : List (String × α)) (k : String) (v : α) :
    (setFile fs k v).map Prod.fst =
      if fs.any (fun p => p.1 == k) then fs.map Prod.fst else fs.map Prod.fst ++ [k] := by
  unfold setFile
  by_cases h : fs.any fun p => p.1 == k
  · rw [if_pos h, if_pos h, List.map_map]
    apply List.map_congr_left
    intro p _
    by_cases hk : p.1 = k
    · simp [hk]
    · simp [hk]
  · rw [if_neg h, if_neg h, List.map_append]
    rfl

/-- C5 counterexample: on `main.py`, an enrollment attempt for an already-enrolled
name with a faceless image returns `NoFaceDetected` and leaves the in-memory store
untouched, but destroys the persisted files: the pre-existing image for `"bob"` is
first overwritten and then deleted, so the file store goes from one entry to none. -/
theorem enroll_faceless_deletes_prior_file :
    add_employee_capture [[(1 : ℚ)]] ["bob"] [("bob", [[(1 : ℚ)]])] "bob" []
      = ⟨[[(1 : ℚ)]], ["bob"], [], .noFaceDetected⟩ ∧
    ([] : List (String × Image)) ≠ [("bob", [[(1 : ℚ)]])] := by
  constructor
  · rfl
  · simp

/-- C5 amended: a faceless enrollment attempt returns `NoFaceDetected` and leaves the
in-memory Identity Store unchanged, and no candidate file remains persisted; the
persisted files lose exactly the entries keyed by the enrolled name (`main.py` saves
then deletes `<name>.jpg`), so they are fully unchanged whenever no file for that name
pre-existed; the `main2.py` variant changes neither files nor trained store. -/
theorem enroll_faceless_amended (encs : List (List ℚ)) (names : List String)
    (files : List (String × Image)) (name : String)
    (files2 : List (String × Image2)) (store : TrainResult) :
    add_employee_capture encs names files name []
      = ⟨encs, names, removeFile files name, .noFaceDetected⟩ ∧
    (name ∉ files.map Prod.fst → removeFile files name = files) ∧
    add_employee_capture2 files2 store name [] = ⟨files2, store, .noFaceDetected⟩ := by
  refine ⟨?_, removeFile_not_mem files name, rfl⟩
  have h0 : add_employee_capture encs names files name []
      = ⟨encs, names, removeFile (setFile files name []) name, .noFaceDetected⟩ := rfl
  rw [h0, removeFile_setFile]

theorem enroll_faceless_amended_witness :
    add_employee_capture [] [] [("x", [[(2 : ℚ)]])] "bob" []
      = ⟨[], [], [("x", [[(2 : ℚ)]])], .noFaceDetected⟩ := by
  have h := enroll_faceless_amended [] [] [("x", [[(2 : ℚ)]])] "bob" [] ⟨[], [], [], false, []⟩
  rw [h.1, h.2.1 (by simp)]

/-- Characterization of the training loop from an arbitrary starting id `n`: samples
are the first detected region of each image that has one, ids are the labels of
exactly those images, the id map pairs consecutive labels `n, n+1, ...` with every
file's name (faceless images included), and a `Processed` line is printed exactly for
images with a detected face. -/
theorem trainGo_eq (files : List (String × Image2)) (n : Nat) :
    trainGo files n =
      (files.filterMap (fun p => p.2.head?),
        ((List.range' n files.length).zip files).filterMap
          (fun p => if p.2.2.isEmpty then none else some p.1),
        (List.range' n files.length).zip (files.map Prod.fst),
        (files.filter fun p => !p.2.isEmpty).map Prod.fst) := by
  induction files generalizing n with
  | nil => rfl
  | cons f rest ih =>
    obtain ⟨name, img⟩ := f
    cases img with
    | nil =>
      simp [trainGo, ih (n + 1), List.range'_succ, List.filterMap_cons, List.filter_cons]
    | cons r rs =>
      simp [trainGo, ih (n + 1), List.range'_succ, List.filterMap_cons, List.filter_cons]

/-- C7 amended: `train_model` assigns integer labels monotonically increasing from 1
in enumeration order to EVERY image file (also the faceless ones); per image only the
first detected face region becomes a training sample; an employee whose image yields
no detected face contributes no training sample and no `Processed` output line is
printed for them (no warning is logged), but they still receive a label and an entry
in the persisted label-to-name table. -/
theorem train_model_characterization (files : List (String × Image2)) :
    (train_model files).idMap = (List.range' 1 files.length).zip (files.map Prod.fst) ∧
    (train_model files).idMap.map Prod.fst = List.range' 1 files.length ∧
    (train_model files).idMap.map Prod.snd = files.map Prod.fst ∧
    (train_model files).faces = files.filterMap (fun p => p.2.head?) ∧
    (train_model files).ids =
      ((List.range' 1 files.length).zip files).filterMap
        (fun p => if p.2.2.isEmpty then none else some p.1) ∧
    (train_model files).processed = (files.filter fun p => !p.2.isEmpty).map Prod.fst := by
  have h := trainGo_eq files 1
  have hmap : (train_model files).idMap = (List.range' 1 files.length).zip (files.map Prod.fst) := by
    unfold train_model
    rw [h]
  have hfst : (train_model files).idMap.map Prod.fst = List.range' 1 files.length := by
    rw [hmap]
    exact List.map_fst_zip _ _ (by simp [List.length_range'])
  have hsnd : (train_model files).idMap.map Prod.snd = files.map Prod.fst := by
    rw [hmap]
    exact List.map_snd_zip _ _ (by simp [List.length_range'])
  refine ⟨hmap, hfst, hsnd, ?_, ?_, ?_⟩ <;> unfold train_model <;> rw [h]

/-- C7 counterexample: training over `alice` (one detected face) and `bob` (no
detected face) excludes `bob` from the training samples but still assigns `bob`
label 2 and writes the entry `(2, bob)` into the persisted label-to-name table, and
prints no warning — the only output line is `Processed: alice`. -/
theorem train_model_faceless_in_table :
    train_model [("alice", [10]), ("bob", [])]
      = ⟨[10], [1], [(1, "alice"), (2, "bob")], true, ["alice"]⟩ ∧
    (2, "bob") ∈ (train_model [("alice", [10]), ("bob", [])]).idMap := by
  constructor
  · rfl
  · decide

/-- C6 counterexample: on `main.py`, successfully re-enrolling the already-enrolled
name `alice` appends a second template instead of replacing the first: the in-memory
Identity Store ends with two entries for `alice`. -/
theorem reenroll_duplicates_in_memory :
    (add_employee_capture [[(1 : ℚ)]] ["alice"] [("alice", [[(1 : ℚ)]])] "alice"
        [[(2 : ℚ)]]).names = ["alice", "alice"] ∧
    (["alice", "alice"] : List String).count "alice" = 2 := by
  constructor
  · rfl
  · decide

/-- C6 amended: the persisted file store keeps at most one file per name (`setFile`
overwrites, preserving key uniqueness), and `main2.py`'s full retrain yields a
label-to-name table whose names are exactly the (unique) file stems; but `main.py`'s
in-memory store APPENDS on every successful enrollment, so re-enrolling an enrolled
name leaves that name with two active templates for the rest of the session. -/
theorem identity_store_one_template_amended :
    (∀ (fs : List (String × Image)) (k : String) (v : Image),
      (fs.map Prod.fst).Nodup → ((setFile fs k v).map Prod.fst).Nodup) ∧
    (∀ files : List (String × Image2),
      (train_model files).idMap.map Prod.snd = files.map Prod.fst) ∧
    (∀ (encs : List (List ℚ)) (names : List String) (files : List (String × Image))
      (name : String) (e : List ℚ) (es : List (List ℚ)),
      add_employee_capture encs names files name (e :: es)
        = ⟨encs ++ [e], names ++ [name], setFile files name (e :: es), .success⟩) := by
  refine ⟨?_, ?_, fun _ _ _ _ _ _ => rfl⟩
  · intro fs k v hnd
    rw [setFile_map_fst]
    by_cases h : fs.any fun p => p.1 == k
    · rw [if_pos h]
      exact hnd
    · rw [if_neg h]
      rw [List.nodup_append]
      refine ⟨hnd, List.nodup_singleton k, List.disjoint_singleton.2 ?_⟩
      intro hk
      apply h
      obtain ⟨p, hp, hpk⟩ := List.mem_map.1 hk
      exact List.any_eq_true.2 ⟨p, hp, by simp [hpk]⟩
  · intro files
    have hmap : (train_model files).idMap
        = (List.range' 1 files.length).zip (files.map Prod.fst) := by
      unfold train_model
      rw [trainGo_eq files 1]
    rw [hmap]
    exact List.map_snd_zip _ _ (by simp [List.length_range'])

theorem identity_store_one_template_amended_witness :
    ((setFile [("alice", [[(1 : ℚ)]])] "alice" [[(2 : ℚ)]]).map Prod.fst).Nodup := by
  exact identity_store_one_template_amended.1 [("alice", [[(1 : ℚ)]])] "alice" [[(2 : ℚ)]]
    (by simp)

/-- C9: attempting recognition with an untrained classifier is surfaced as a
reported failure, not a silent Unknown, and never crashes the loop: the per-face
step of `main2.py` catches the prediction error, prints an error message (so the
precondition failure is reported), resolves no name for the frame, calls
`mark_attendance` with nothing, leaves the ledger untouched and fires no feedback —
and, being a total function, it returns normally so the recognition loop continues. -/
theorem untrained_model_reported (employeeIds : List (Nat × String)) (faceImg : Nat)
    (ledger : List String) (d t : String) :
    run_face_step2 none employeeIds faceImg ledger d t
      = ⟨none, some "Error during recognition: model not trained", none, ledger, false⟩ :=
  rfl

/-- C10: when the trained classifier predicts a label with confidence below the
threshold 70 but that label is absent from the label-to-name table, the resolved
name is the literal `"Unknown"` and `mark_attendance` is nevertheless invoked with
it; consequently a ledger record whose Name field is `"Unknown"` is appended whenever
none exists for the day, and a repeated occurrence on the same date appends nothing
(at most one such record per day). -/
theorem unknown_label_marks_unknown (predict : Nat → Nat × ℚ)
    (employeeIds : List (Nat × String)) (faceImg : Nat) (ledger : List String)
    (d t : String) (i : Nat) (c : ℚ)
    (hp : predict faceImg = (i, c)) (hc : c < 70) (hm : lookupId employeeIds i = none) :
    run_face_step2 (some predict) employeeIds faceImg ledger d t
      = ⟨some "Unknown", none, some "Unknown",
          (mark_attendance ledger "Unknown" d t).ledger,
          (mark_attendance ledger "Unknown" d t).feedback⟩ ∧
    (alreadyMarked ledger "Unknown" d = false →
      (mark_attendance ledger "Unknown" d t).ledger = ledger ++ [csvLine "Unknown" d t] ∧
      alreadyMarked (ledger ++ [csvLine "Unknown" d t]) "Unknown" d = true) := by
  constructor
  · simp [run_face_step2, hp, hc, hm]
  · intro h
    exact ⟨by simp [mark_attendance, h], alreadyMarked_append_self ledger "Unknown" d t⟩

theorem unknown_label_marks_unknown_witness :
    run_face_step2 (some fun _ => (5, 0)) [(1, "alice")] 0 [] "2025-10-12" "08:30:00"
      = ⟨some "Unknown", none, some "Unknown",
          (mark_attendance [] "Unknown" "2025-10-12" "08:30:00").ledger,
          (mark_attendance [] "Unknown" "2025-10-12" "08:30:00").feedback⟩ := by
  exact (unknown_label_marks_unknown (fun _ => (5, 0)) [(1, "alice")] 0 [] "2025-10-12"
    "08:30:00" 5 0 rfl (by norm_num) rfl).1
